import Mathlib

/-!
Shallow embedding of the compliance-checker core:
* `src/lib/metrology.ts` — `parseFieldsFromRawText` (field extractor) and
  `validateLocally` (rule evaluator);
* the average-hash similarity client (`cvSimilarityClient`,
  `hammingDistanceHashBigInt`, `computeAHashBig`);
* `src/lib/cv_google.ts` — label/color similarity (`googleCVSimilarity`,
  `jaccardSimilarity`, `paletteSimilarity`).

Strings are embedded as `String` / `List Char`; JS regex matches are embedded
as explicit scanners with the regex engine's leftmost-first semantics
(scan start positions left to right; at a position, alternatives in order,
greedy quantifiers with explicit backtracking where it can matter).
JS numbers are embedded as `ℚ` where every value reached is rational, and as
`ℝ` where the code takes square roots (`cv_google.ts` color distances).
-/

namespace Compliance

/-- JS `\s` restricted to the ASCII whitespace characters
(space, tab, newline, carriage return, vertical tab, form feed). -/
def jsSpace (c : Char) : Bool :=
  c == ' ' || c == '\t' || c == '\n' || c == '\r' || c == '\x0b' || c == '\x0c'

/-- JS regex word character `[A-Za-z0-9_]` (used by `\b`). -/
def isWordChar (c : Char) : Bool :=
  c.isAlpha || c.isDigit || c == '_'

/-- `\b` holds after a match iff the following text starts with a non-word
character or is empty (all uses here have a word character before the `\b`). -/
def wordBoundaryAfter (cs : List Char) : Bool :=
  match cs with
  | [] => true
  | c :: _ => !(isWordChar c)

/-- `\b` holds before a match iff the preceding character is absent or a
non-word character (all uses here have a word character after the `\b`). -/
def boundaryBefore (prev : Option Char) : Bool :=
  match prev with
  | none => true
  | some c => !(isWordChar c)

/-- Greedily take at most `n` leading decimal digits; returns (digits, rest). -/
def takeDigitsUpTo : Nat → List Char → List Char × List Char
  | 0, cs => ([], cs)
  | _ + 1, [] => ([], [])
  | n + 1, c :: cs =>
    if c.isDigit then
      let (ds, r) := takeDigitsUpTo n cs
      (c :: ds, r)
    else ([], c :: cs)

/-- Case-insensitive literal token match (ASCII folding, exactly the ECMAScript
canonicalisation for non-`u` regexes); returns the rest of the text. -/
def matchTokenCI : List Char → List Char → Option (List Char)
  | [], cs => some cs
  | _ :: _, [] => none
  | t :: ts, c :: cs => if c.toLower == t then matchTokenCI ts cs else none

/-- First `some` produced by `f` over the list, in order (regex alternation). -/
def firstSome? : List α → (α → Option β) → Option β
  | [], _ => none
  | a :: as, f =>
    match f a with
    | some b => some b
    | none => firstSome? as f

/-- Leftmost-match scan: try the position matcher `f` at every start position,
left to right, passing the previous character (for `\b`). -/
def scanText (f : Option Char → List Char → Option α) : Option Char → List Char → Option α
  | prev, [] => f prev []
  | prev, c :: cs =>
    match f prev (c :: cs) with
    | some r => some r
    | none => scanText f (some c) cs

/-- Does `f` match at some position of the text (regex `test`). -/
def containsMatch (f : List Char → Bool) : List Char → Bool
  | [] => f []
  | c :: cs => f (c :: cs) || containsMatch f cs

/-- The amount part `\d{1,5}(?:[\.,]\d{2})?` of the MRP regex at the current
position (greedy digits; the optional 2-digit decimal part taken if present). -/
def amountAt (cs : List Char) : Option (List Char) :=
  match takeDigitsUpTo 5 cs with
  | ([], _) => none
  | (d :: ds, rest) =>
    match rest with
    | s :: d1 :: d2 :: _ =>
      if (s == '.' || s == ',') && d1.isDigit && d2.isDigit then
        some ((d :: ds) ++ [s, d1, d2])
      else some (d :: ds)
    | _ => some (d :: ds)

/-- `metrology.ts:31`: `/(?:₹|rs\.?\s*)(\d{1,5}(?:[\.,]\d{2})?)/i` at one
position. Returns (whole match, amount capture group). -/
def mrpAt (_prev : Option Char) (cs : List Char) : Option (List Char × List Char) :=
  match cs with
  | [] => none
  | c :: rest =>
    if c == '₹' then
      (amountAt rest).map fun amt => ('₹' :: amt, amt)
    else if c.toLower == 'r' then
      match rest with
      | c2 :: rest2 =>
        if c2.toLower == 's' then
          if rest2.head? == some '.' then
            let sp := (rest2.tail.span jsSpace).1
            let rest4 := (rest2.tail.span jsSpace).2
            (amountAt rest4).map fun amt => (c :: c2 :: '.' :: (sp ++ amt), amt)
          else
            let sp := (rest2.span jsSpace).1
            let rest4 := (rest2.span jsSpace).2
            (amountAt rest4).map fun amt => (c :: c2 :: (sp ++ amt), amt)
        else none
      | [] => none
    else none

/-- The unit alternation of `metrology.ts:34`, in the regex's order. -/
def UNIT_TOKENS : List String :=
  ["kg", "gram", "grams", "g", "ml", "l", "lt", "liter", "litre",
   "liters", "litres", "pcs", "piece", "pieces"]

/-- Match one unit token (case-insensitive) followed by `\b`; returns the
lower-cased token (which is what `validateLocally`'s caller consumes). -/
def unitAt (cs : List Char) : Option String :=
  firstSome? UNIT_TOKENS fun tok =>
    match matchTokenCI tok.data cs with
    | some rest => if wordBoundaryAfter rest then some tok else none
    | none => none

/-- Candidates for the optional `(?:[\.,]\d{1,2})?` decimal part of the
quantity regex, in greedy order: separator + 2 digits, separator + 1 digit,
empty. -/
def decCandidates (cs : List Char) : List (List Char) :=
  (match cs with
   | s :: d1 :: d2 :: _ =>
     if (s == '.' || s == ',') && d1.isDigit && d2.isDigit then [[s, d1, d2]] else []
   | _ => []) ++
  (match cs with
   | s :: d1 :: _ =>
     if (s == '.' || s == ',') && d1.isDigit then [[s, d1]] else []
   | _ => []) ++
  [[]]

/-- Candidates for the greedy `\d{1,4}` integer part: nonempty digit runs of
decreasing length, each with the corresponding rest of the text. -/
def digitCandidates (cs : List Char) : List (List Char × List Char) :=
  let (ds, rest) := takeDigitsUpTo 4 cs
  (List.range ds.length).map fun j =>
    (ds.take (ds.length - j), ds.drop (ds.length - j) ++ rest)

/-- `metrology.ts:34`:
`/(\d{1,4}(?:[\.,]\d{1,2})?)\s*(kg|gram|grams|g|ml|l|lt|liter|litre|liters|litres|pcs|piece|pieces)\b/i`
at one position. Returns (numeric capture group, lower-cased unit token). -/
def qtyAt (_prev : Option Char) (cs : List Char) : Option (List Char × String) :=
  firstSome? (digitCandidates cs) fun dc =>
    firstSome? (decCandidates dc.2) fun dec =>
      let rest2 := dc.2.drop dec.length
      let rest3 := (rest2.span jsSpace).2
      (unitAt rest3).map fun tok => (dc.1 ++ dec, tok)

/-- `metrology.ts:44`: `/\b(0[1-9]|1[0-2])\s*[\/\.\-]\s*(20\d{2}|19\d{2})\b/`
at one position. Returns (month digits, year digits). -/
def monthYearAt (prev : Option Char) (cs : List Char) : Option (List Char × List Char) :=
  if !boundaryBefore prev then none
  else
    match cs with
    | m1 :: m2 :: rest =>
      if (m1 == '0' && m2.isDigit && !(m2 == '0')) ||
         (m1 == '1' && (m2 == '0' || m2 == '1' || m2 == '2')) then
        let rest1 := (rest.span jsSpace).2
        match rest1 with
        | s :: rest2 =>
          if s == '/' || s == '.' || s == '-' then
            let rest3 := (rest2.span jsSpace).2
            match rest3 with
            | y1 :: y2 :: y3 :: y4 :: rest4 =>
              if ((y1 == '2' && y2 == '0') || (y1 == '1' && y2 == '9')) &&
                 y3.isDigit && y4.isDigit && wordBoundaryAfter rest4 then
                some ([m1, m2], [y1, y2, y3, y4])
              else none
            | _ => none
          else none
        | [] => none
      else none
    | _ => none

/-- The toll-free alternative `1[89]00[-\s]?\d{3}[-\s]?\d{3,4}` of
`metrology.ts:54` at one position. Returns the whole match. -/
def careTollFree (cs : List Char) : Option (List Char) :=
  match cs with
  | '1' :: c2 :: '0' :: '0' :: rest =>
    if c2 == '8' || c2 == '9' then
      let (sep1, rest1) :=
        match rest with
        | s :: r => if s == '-' || jsSpace s then ([s], r) else (([] : List Char), s :: r)
        | [] => (([] : List Char), ([] : List Char))
      match rest1 with
      | d1 :: d2 :: d3 :: rest2 =>
        if d1.isDigit && d2.isDigit && d3.isDigit then
          let (sep2, rest3) :=
            match rest2 with
            | s :: r => if s == '-' || jsSpace s then ([s], r) else (([] : List Char), s :: r)
            | [] => (([] : List Char), ([] : List Char))
          match rest3 with
          | e1 :: e2 :: e3 :: rest4 =>
            if e1.isDigit && e2.isDigit && e3.isDigit then
              match rest4 with
              | e4 :: _ =>
                if e4.isDigit then
                  some ('1' :: c2 :: '0' :: '0' :: (sep1 ++ [d1, d2, d3] ++ sep2 ++ [e1, e2, e3, e4]))
                else
                  some ('1' :: c2 :: '0' :: '0' :: (sep1 ++ [d1, d2, d3] ++ sep2 ++ [e1, e2, e3]))
              | [] =>
                some ('1' :: c2 :: '0' :: '0' :: (sep1 ++ [d1, d2, d3] ++ sep2 ++ [e1, e2, e3]))
            else none
          | _ => none
        else none
      | _ => none
    else none
  | _ => none

/-- The alternative `\b\d{10}\b` of `metrology.ts:54` at one position. -/
def careTenDigit (prev : Option Char) (cs : List Char) : Option (List Char) :=
  if !boundaryBefore prev then none
  else
    let ds := (takeDigitsUpTo 10 cs).1
    let rest := (takeDigitsUpTo 10 cs).2
    if ds.length == 10 && wordBoundaryAfter rest then some ds else none

/-- `metrology.ts:54`: `/(1[89]00[-\s]?\d{3}[-\s]?\d{3,4}|\b\d{10}\b)/` at one
position (alternatives in order). -/
def careAt (prev : Option Char) (cs : List Char) : Option (List Char) :=
  match careTollFree cs with
  | some r => some r
  | none => careTenDigit prev cs

/-- JS `text.split(/\r?\n/)`: split at `\n`, consuming one `\r` immediately
before it. The accumulator holds the current piece reversed. -/
def splitLinesAux : List Char → List Char → List (List Char)
  | acc, [] => [acc.reverse]
  | acc, '\n' :: cs =>
    (match acc with
     | '\r' :: acc2 => acc2.reverse
     | _ => acc.reverse) :: splitLinesAux [] cs
  | acc, c :: cs => splitLinesAux (c :: acc) cs

/-- JS `String.prototype.trim` (whitespace at both ends). -/
def jsTrim (cs : List Char) : List Char :=
  ((cs.dropWhile jsSpace).reverse.dropWhile jsSpace).reverse

/-- `metrology.ts:27`: split into lines, trim each, keep the non-empty ones. -/
def linesOf (text : List Char) : List (List Char) :=
  ((splitLinesAux [] text).map jsTrim).filter fun l => !l.isEmpty

/-- One-position matcher for `/manufact|mfg\.?\s*by|packer|importer/i`. -/
def manufAt (cs : List Char) : Bool :=
  (matchTokenCI "manufact".data cs).isSome ||
  (match matchTokenCI "mfg".data cs with
   | some rest =>
     let rest1 := match rest with | '.' :: r => r | _ => rest
     let rest2 := (rest1.span jsSpace).2
     (matchTokenCI "by".data rest2).isSome
   | none => false) ||
  (matchTokenCI "packer".data cs).isSome ||
  (matchTokenCI "importer".data cs).isSome

/-- `metrology.ts:47`: manufacturer-indicator line test. -/
def manufTest (l : List Char) : Bool := containsMatch manufAt l

/-- One-position matcher for `/name\s*:/i`. -/
def nameColonAt (cs : List Char) : Bool :=
  match matchTokenCI "name".data cs with
  | some rest =>
    match (rest.span jsSpace).2 with
    | ':' :: _ => true
    | _ => false
  | none => false

/-- `metrology.ts:57`: `name:` line test. -/
def nameTest (l : List Char) : Bool := containsMatch nameColonAt l

/-- A character `.` does not match in a non-`s` JS regex (line terminators). -/
def isLineTerm (c : Char) : Bool :=
  c == '\n' || c == '\r' || c == '\u2028' || c == '\u2029'

/-- JS `s.replace(/.*?:\s*/i, "")`: remove the first (lazy) run of
non-terminator characters up to and including the first reachable `:` and any
following whitespace. The first match starts right after the last line
terminator preceding the first `:` of the string. -/
def stripColonRepl (s : List Char) : List Char :=
  match s.findIdx? (· == ':') with
  | none => s
  | some q =>
    let p :=
      match (s.take q).reverse.findIdx? isLineTerm with
      | none => 0
      | some k => q - k
    s.take p ++ ((s.drop (q + 1)).dropWhile jsSpace)

/-- One-position matcher for `/mrp|price|₹|rs\.?/i` (the `\.?` never affects
whether a position matches). -/
def prominentAt (cs : List Char) : Bool :=
  (matchTokenCI "mrp".data cs).isSome ||
  (matchTokenCI "price".data cs).isSome ||
  (match cs with | '₹' :: _ => true | _ => false) ||
  (matchTokenCI "rs".data cs).isSome

/-- `metrology.ts:86`: `/mrp|price|₹|rs\.?/i.test` on the raw text. -/
def prominentTest (s : String) : Bool := containsMatch prominentAt s.data

/-- `metrology.ts:80`: `/^\d+(?:\.\d+)?$/.test`. -/
def numericTest (cs : List Char) : Bool :=
  let (ds, rest) := cs.span Char.isDigit
  !ds.isEmpty &&
  (match rest with
   | [] => true
   | '.' :: rest2 =>
     let (ds2, rest3) := rest2.span Char.isDigit
     !ds2.isEmpty && rest3.isEmpty
   | _ => false)

/-- `metrology.ts:6-23`: `UNIT_MAP` lookup table. -/
def UNIT_MAP : List (String × String) :=
  [("g", "g"), ("gram", "g"), ("grams", "g"),
   ("kg", "kg"), ("kilogram", "kg"), ("kilograms", "kg"),
   ("ml", "ml"),
   ("l", "L"), ("lt", "L"), ("liter", "L"), ("litre", "L"),
   ("liters", "L"), ("litres", "L"),
   ("pcs", "pcs"), ("piece", "pcs"), ("pieces", "pcs")]

/-- `metrology.ts:40`: `UNIT_MAP[uRaw] || uRaw`. -/
def unitMapLookup (u : String) : String :=
  match UNIT_MAP.find? (fun p => p.1 == u) with
  | some p => p.2
  | none => u

/-- `metrology.ts:26`: `raw.replace(/₹/g, "₹")` (U+20B9 is `₹`, so this
is the identity map written character by character, as in the source). -/
def normalizeRupee (cs : List Char) : List Char :=
  cs.map fun c => if c == '₹' then '₹' else c

/-- `types/api.ts`: `OCRExtractedFields` (all fields optional in the
interface; the extractor always sets `raw_text`). -/
structure OCRExtractedFields where
  generic_name : Option String := none
  mrp : Option String := none
  net_quantity : Option String := none
  unit : Option String := none
  manufacturer_name : Option String := none
  manufacturer_address : Option String := none
  month_year : Option String := none
  consumer_care : Option String := none
  raw_text : Option String := none
deriving Repr, DecidableEq

/-- `metrology.ts:25-71`: `parseFieldsFromRawText`. -/
def parseFieldsFromRawText (raw : String) : OCRExtractedFields :=
  let text := normalizeRupee raw.data
  let lines := linesOf text
  let mrpMatch := scanText mrpAt none text
  let qtyMatch := scanText qtyAt none text
  let myMatch := scanText monthYearAt none text
  let manufLine := lines.find? manufTest
  let manufacturer_name := manufLine.map fun l => (stripColonRepl l).asString
  let manufacturer_address :=
    match manufLine with
    | none => none
    | some l =>
      let idx := lines.indexOf l
      match lines.get? (idx + 1) with
      | some nxt =>
        if nxt.any (fun c => c.isDigit || c == ',') then some nxt.asString else none
      | none => none
  let careMatch := scanText careAt none text
  let nameLine := lines.find? nameTest
  let generic_name := nameLine.map fun l => (jsTrim (stripColonRepl l)).asString
  { generic_name := generic_name,
    mrp := mrpMatch.map fun m =>
      if text.contains '₹' then ('₹' :: m.2).asString else m.1.asString,
    net_quantity := qtyMatch.map fun m => (m.1.filter fun c => !(c == ',')).asString,
    unit := qtyMatch.map fun m => unitMapLookup m.2,
    manufacturer_name := manufacturer_name,
    manufacturer_address := manufacturer_address,
    month_year := myMatch.map fun m => (m.1 ++ '/' :: m.2).asString,
    consumer_care := careMatch.map List.asString,
    raw_text := some raw }

/-- `types/api.ts`: `RuleResult` (confidence embedded as `ℚ`). -/
structure RuleResult where
  rule_key : String
  passed : Bool
  confidence : ℚ
deriving Repr, DecidableEq

/-- `types/api.ts`: `SummaryResult` as produced by `validateLocally`. -/
structure SummaryResult where
  compliant : Bool
  violations : List String
  violation_count : Nat
deriving Repr, DecidableEq

/-- JS truthiness of an optional string (`undefined` and `""` are falsy). -/
def optTruthy : Option String → Bool
  | none => false
  | some s => !(s == "")

/-- `/\d/.test` on a string. -/
def strContainsDigit (s : String) : Bool := s.data.any Char.isDigit

/-- `metrology.ts:73-97`: `validateLocally`. -/
def validateLocally (ex : OCRExtractedFields) : List RuleResult × SummaryResult :=
  let mk := fun (rule_key : String) (passed : Bool) =>
    RuleResult.mk rule_key passed (if passed then 95 / 100 else 7 / 10)
  let rules : List RuleResult :=
    [mk "manufacturer_address_present"
        (optTruthy ex.manufacturer_name || optTruthy ex.manufacturer_address),
     mk "generic_name_present" (optTruthy ex.generic_name),
     mk "net_quantity_present" (optTruthy ex.net_quantity),
     mk "net_quantity_numeric"
        (optTruthy ex.net_quantity && numericTest (ex.net_quantity.getD "").data),
     mk "net_quantity_unit_valid"
        (optTruthy ex.unit &&
          (["g", "kg", "ml", "L", "cm", "m", "pcs"].contains (ex.unit.getD ""))),
     mk "month_year_present" (optTruthy ex.month_year),
     mk "mrp_present" (optTruthy ex.mrp),
     mk "mrp_format_valid" (optTruthy ex.mrp && strContainsDigit (ex.mrp.getD "")),
     mk "mrp_prominent_in_text"
        (optTruthy ex.raw_text && prominentTest (ex.raw_text.getD "")),
     mk "consumer_care_present" (optTruthy ex.consumer_care)]
  let failed := (rules.filter fun r => !r.passed).map RuleResult.rule_key
  (rules,
   { compliant := failed.length == 0,
     violations := failed,
     violation_count := failed.length })

/-!  Average-hash similarity client (the unnamed CV similarity module). -/

/-- The loop `while (x) { x &= x - 1n; count++ }` of
`hammingDistanceHashBigInt`, with explicit fuel (`x` itself suffices: the
number of iterations is at most the number of set bits of `x`, which is at
most `x`). -/
def popcountAux : Nat → Nat → Nat
  | 0, _ => 0
  | f + 1, x => if x = 0 then 0 else popcountAux f (x &&& (x - 1)) + 1

/-- Number of set bits, computed exactly as the source's clear-lowest-bit
loop. -/
def popcount (x : Nat) : Nat := popcountAux x x

/-- `hammingDistanceHashBigInt(a, b)`: popcount of `a XOR b`. -/
def hammingDistanceHashBigInt (a b : Nat) : Nat := popcount (a ^^^ b)

/-- Reference count of binary digits equal to 1 (division-based recursion),
used to relate `popcount` to the binary representation. -/
def bitcountAux : Nat → Nat → Nat
  | 0, _ => 0
  | f + 1, x => if x = 0 then 0 else bitcountAux f (x / 2) + x % 2

/-- Division-based bit count (specification-side helper). -/
def bitcount (x : Nat) : Nat := bitcountAux x x

/-- `computeAHashBig`'s luminance weighting `0.299r + 0.587g + 0.114b`
(grayscale conversion of one pixel). -/
def luminance (r g b : ℚ) : ℚ :=
  299 / 1000 * r + 587 / 1000 * g + 114 / 1000 * b

/-- `computeAHashBig`, from the 64 grayscale values of the 8×8 grid: the
fold `hash = (hash << 1n) | (gray[i] >= avg ? 1n : 0n)` over the mean
threshold (`(hash << 1) | bit = 2 * hash + bit` since the low bit is free). -/
def computeAHashBig (gray : List ℚ) : Nat :=
  let avg := gray.sum / (gray.length : ℚ)
  gray.foldl (fun h g => 2 * h + (if avg ≤ g then 1 else 0)) 0

/-- JS `Number(x.toFixed(2))` on a non-negative rational value: round to the
nearest multiple of 1/100, ties to the larger value (ECMAScript `toFixed`
picks the larger candidate on ties), which is `round` for non-negatives. -/
def toFixed2 (q : ℚ) : ℚ := ((round (q * 100) : ℤ) : ℚ) / 100

/-- Verdict thresholds of `cvSimilarityClient` (lines 17-21):
`similarity >= 0.85 ? "likely_match" : similarity >= 0.7 ? ... : "mismatch"`. -/
def cvVerdict (similarity : ℚ) : String :=
  if 85 / 100 ≤ similarity then "likely_match"
  else if 7 / 10 ≤ similarity then "likely_match_with_warnings"
  else "mismatch"

/-- Verdict thresholds of `googleCVSimilarity` (`cv_google.ts:61`), applied
there to the 2-decimal-rounded similarity, an integer multiple of 1/100;
embedded over `ℚ`. -/
def googleVerdict (similarity : ℚ) : String :=
  if 85 / 100 ≤ similarity then "likely_match"
  else if 7 / 10 ≤ similarity then "likely_match_with_warnings"
  else "mismatch"

/-- One entry of the `flags` array. -/
structure CVFlag where
  key : String
  present : Bool
deriving Repr, DecidableEq

/-- The result record of `cvSimilarityClient`. -/
structure CVSimilarityResult where
  similarity : ℚ
  flags : List CVFlag
  verdict : String
deriving Repr, DecidableEq

/-- The exact (pre-rounding) similarity `1 - dist / 64` of
`cvSimilarityClient` line 12. -/
def cvRawSimilarity (a b : Nat) : ℚ :=
  1 - (hammingDistanceHashBigInt a b : ℚ) / 64

/-- `cvSimilarityClient`, from the two already-computed 64-bit fingerprints
(image decoding and canvas rendering are the out-of-scope I/O part). -/
def cvSimilarityClient (h1 h2 : Nat) : CVSimilarityResult :=
  let dist := hammingDistanceHashBigInt h1 h2
  let similarity : ℚ := 1 - (dist : ℚ) / 64
  { similarity := toFixed2 similarity,
    flags := [⟨"packaging_layout_diff", decide (0 < dist)⟩],
    verdict := cvVerdict similarity }

/-!  `cv_google.ts` label/color similarity. -/

/-- JS `toLowerCase` restricted to ASCII letters (the embedding used for
label strings). -/
def lowerString (s : String) : String := (s.data.map Char.toLower).asString

/-- `cv_google.ts:70-78`: `jaccardSimilarity` over string sets. -/
def jaccardSimilarity (a b : Finset String) : ℚ :=
  if a.card = 0 ∧ b.card = 0 then 0
  else
    let inter := (a ∩ b).card
    let union := a.card + b.card - inter
    if union = 0 then 0 else (inter : ℚ) / (union : ℚ)

/-- A dominant color `{red, green, blue}` (the `c.color || {...}` and
`(x || 0)` null-defaulting is applied before this record is formed). -/
structure RGBColor where
  red : ℝ
  green : ℝ
  blue : ℝ

/-- `cv_google.ts:101-106`: `colorDistance`, Euclidean RGB distance
(`Math.sqrt` forces the `ℝ` embedding for this module). -/
noncomputable def colorDistance (a b : RGBColor) : ℝ :=
  Real.sqrt ((a.red - b.red) * (a.red - b.red) +
    (a.green - b.green) * (a.green - b.green) +
    (a.blue - b.blue) * (a.blue - b.blue))

/-- The `best = Infinity; for (cb of b) ...` nearest-neighbour loop of
`paletteSimilarity`; for the empty palette (unreachable under the guard at
line 82) the value is irrelevant and set to 0. -/
noncomputable def bestDistance (ca : RGBColor) (bs : List RGBColor) : ℝ :=
  match bs with
  | [] => 0
  | c :: cs => (cs.map (colorDistance ca)).foldl min (colorDistance ca c)

/-- `cv_google.ts:80-99`: `paletteSimilarity`. -/
noncomputable def paletteSimilarity (a b : List RGBColor) : ℝ :=
  if a.isEmpty || b.isEmpty then 0
  else
    let sims := a.map fun ca => 1 - (min (bestDistance ca b) 442) / 442
    sims.sum / (a.length : ℝ)

/-- JS `Number(x.toFixed(2))` over `ℝ` (same rounding convention as
`toFixed2`). -/
noncomputable def toFixed2R (x : ℝ) : ℝ := ((round (x * 100) : ℤ) : ℝ) / 100

/-- The similarity value computed by `googleCVSimilarity` (`cv_google.ts:43-53`)
from the two label lists and the two dominant-color lists of the Vision
responses: labels are lower-cased and de-duplicated into sets, colors are cut
to the top 5, and `similarity = Number((labelSim * 0.7 + colorSim * 0.3).toFixed(2))`. -/
noncomputable def googleSimilarityValue (refLabels userLabels : List String)
    (refColors userColors : List RGBColor) : ℝ :=
  let labelSim := jaccardSimilarity
    (refLabels.map lowerString).toFinset (userLabels.map lowerString).toFinset
  let colorSim := paletteSimilarity (refColors.take 5) (userColors.take 5)
  toFixed2R ((labelSim : ℝ) * (7 / 10) + colorSim * (3 / 10))

/-!  Decidable checkers for the claimed extractor invariants. -/

/-- The claimed optional-field invariant: absent, or a non-empty string. -/
def absentOrNonempty : Option String → Bool
  | none => true
  | some s => !(s == "")

/-- Claimed invariant of the quantity/unit pair (claim C9): both present or
both absent; a present unit is in the canonical image of `UNIT_MAP`; a
present net quantity passes the `net_quantity_numeric` rule's pattern. -/
def qtyShapeOk (ex : OCRExtractedFields) : Bool :=
  (ex.net_quantity.isNone == ex.unit.isNone) &&
  (match ex.unit with
   | none => true
   | some u => ["g", "kg", "ml", "L", "pcs"].contains u) &&
  (match ex.net_quantity with
   | none => true
   | some q => numericTest q.data)

/-- The absent-or-nonempty invariant over the extractor's output fields other
than `generic_name` and `manufacturer_name` (which can be the empty string
when nothing follows the matched colon). -/
def fieldsShapeOk (ex : OCRExtractedFields) : Bool :=
  absentOrNonempty ex.mrp && absentOrNonempty ex.net_quantity &&
  absentOrNonempty ex.unit && absentOrNonempty ex.manufacturer_address &&
  absentOrNonempty ex.month_year && absentOrNonempty ex.consumer_care

/-!  Theorems. -/



theorem parse_raw_text (raw : String) :
    (parseFieldsFromRawText raw).raw_text = some raw := rfl

theorem parse_mrp (raw : String) :
    (parseFieldsFromRawText raw).mrp =
      (scanText mrpAt none (normalizeRupee raw.data)).map fun m =>
        if (normalizeRupee raw.data).contains '₹' then ('₹' :: m.2).asString
        else m.1.asString := rfl

theorem parse_net_quantity (raw : String) :
    (parseFieldsFromRawText raw).net_quantity =
      (scanText qtyAt none (normalizeRupee raw.data)).map fun m =>
        (m.1.filter fun c => !(c == ',')).asString := rfl

theorem parse_unit (raw : String) :
    (parseFieldsFromRawText raw).unit =
      (scanText qtyAt none (normalizeRupee raw.data)).map fun m =>
        unitMapLookup m.2 := rfl

theorem parse_month_year (raw : String) :
    (parseFieldsFromRawText raw).month_year =
      (scanText monthYearAt none (normalizeRupee raw.data)).map fun m =>
        (m.1 ++ '/' :: m.2).asString := rfl

theorem parse_consumer_care (raw : String) :
    (parseFieldsFromRawText raw).consumer_care =
      (scanText careAt none (normalizeRupee raw.data)).map List.asString := rfl

theorem parse_manufacturer_name (raw : String) :
    (parseFieldsFromRawText raw).manufacturer_name =
      ((linesOf (normalizeRupee raw.data)).find? manufTest).map fun l =>
        (stripColonRepl l).asString := rfl

theorem parse_manufacturer_address (raw : String) :
    (parseFieldsFromRawText raw).manufacturer_address =
      (match (linesOf (normalizeRupee raw.data)).find? manufTest with
       | none => none
       | some l =>
         match (linesOf (normalizeRupee raw.data)).get?
             ((linesOf (normalizeRupee raw.data)).indexOf l + 1) with
         | some nxt =>
           if nxt.any (fun c => c.isDigit || c == ',') then some nxt.asString else none
         | none => none) := rfl

theorem validateLocally_summary_correct (ex : OCRExtractedFields) :
    (validateLocally ex).1.map RuleResult.rule_key =
      ["manufacturer_address_present", "generic_name_present", "net_quantity_present",
       "net_quantity_numeric", "net_quantity_unit_valid", "month_year_present",
       "mrp_present", "mrp_format_valid", "mrp_prominent_in_text",
       "consumer_care_present"] ∧
    (validateLocally ex).2.violations =
      ((validateLocally ex).1.filter fun r => !r.passed).map RuleResult.rule_key ∧
    (validateLocally ex).2.violation_count = (validateLocally ex).2.violations.length ∧
    ((validateLocally ex).2.compliant = true ↔ (validateLocally ex).2.violation_count = 0) := by
  refine ⟨rfl, rfl, rfl, ?_⟩
  simp [validateLocally]

theorem extractor_and_evaluator_total (raw : String) (ex : OCRExtractedFields) :
    (parseFieldsFromRawText raw).raw_text = some raw ∧
    (validateLocally ex).1.length = 10 ∧
    parseFieldsFromRawText "" = { raw_text := some "" } :=
  ⟨rfl, rfl, by decide⟩

theorem extraction_golden_example :
    parseFieldsFromRawText "MRP ₹199.00 Net Qty: 250 g Mfg by: Acme Foods Ltd 12/2025 Consumer Care: 1800-123-4567" =
      { mrp := some "₹199.00",
        net_quantity := some "250",
        unit := some "g",
        manufacturer_name := some "250 g Mfg by: Acme Foods Ltd 12/2025 Consumer Care: 1800-123-4567",
        month_year := some "12/2025",
        consumer_care := some "1800-123-4567",
        raw_text := some "MRP ₹199.00 Net Qty: 250 g Mfg by: Acme Foods Ltd 12/2025 Consumer Care: 1800-123-4567" } ∧
    "Acme Foods Ltd".data <:+: "250 g Mfg by: Acme Foods Ltd 12/2025 Consumer Care: 1800-123-4567".data := by
  exact ⟨by decide, by decide⟩

theorem generic_name_can_be_empty :
    (parseFieldsFromRawText "name:").generic_name = some "" ∧
    (parseFieldsFromRawText "Mfg by:").manufacturer_name = some "" := by
  exact ⟨by decide, by decide⟩

theorem verdict_threshold_mapping :
    (∀ s : ℚ,
      (85 / 100 ≤ s → cvVerdict s = "likely_match" ∧ googleVerdict s = "likely_match") ∧
      (7 / 10 ≤ s → s < 85 / 100 →
        cvVerdict s = "likely_match_with_warnings" ∧
        googleVerdict s = "likely_match_with_warnings") ∧
      (s < 7 / 10 → cvVerdict s = "mismatch" ∧ googleVerdict s = "mismatch")) ∧
    cvVerdict (85 / 100) = "likely_match" ∧
    cvVerdict (7 / 10) = "likely_match_with_warnings" ∧
    cvVerdict (6999 / 10000) = "mismatch" ∧
    googleVerdict (85 / 100) = "likely_match" ∧
    googleVerdict (7 / 10) = "likely_match_with_warnings" ∧
    googleVerdict (6999 / 10000) = "mismatch" := by
  have hmain : ∀ s : ℚ,
      (85 / 100 ≤ s → cvVerdict s = "likely_match" ∧ googleVerdict s = "likely_match") ∧
      (7 / 10 ≤ s → s < 85 / 100 →
        cvVerdict s = "likely_match_with_warnings" ∧
        googleVerdict s = "likely_match_with_warnings") ∧
      (s < 7 / 10 → cvVerdict s = "mismatch" ∧ googleVerdict s = "mismatch") := by
    intro s
    refine ⟨fun h => ?_, fun h1 h2 => ?_, fun h => ?_⟩
    · constructor <;> simp only [cvVerdict, googleVerdict] <;> rw [if_pos h]
    · constructor <;> simp only [cvVerdict, googleVerdict] <;>
        rw [if_neg (not_le.mpr h2), if_pos h1]
    · have h85 : ¬ (85 / 100 ≤ s) := not_le.mpr (lt_trans h (by norm_num))
      have h70 : ¬ (7 / 10 ≤ s) := not_le.mpr h
      constructor <;> simp only [cvVerdict, googleVerdict] <;> rw [if_neg h85, if_neg h70]
  refine ⟨hmain, ?_, ?_, ?_, ?_, ?_, ?_⟩
  · exact ((hmain (85 / 100)).1 le_rfl).1
  · exact ((hmain (7 / 10)).2.1 le_rfl (by norm_num)).1
  · exact ((hmain (6999 / 10000)).2.2 (by norm_num)).1
  · exact ((hmain (85 / 100)).1 le_rfl).2
  · exact ((hmain (7 / 10)).2.1 le_rfl (by norm_num)).2
  · exact ((hmain (6999 / 10000)).2.2 (by norm_num)).2

theorem verdict_threshold_mapping_witness :
    cvVerdict (85 / 100) = "likely_match" ∧ googleVerdict (85 / 100) = "likely_match" :=
  (verdict_threshold_mapping.1 (85 / 100)).1 (le_refl _)

theorem google_similarity_formula
    (refLabels userLabels : List String) (refColors userColors : List RGBColor) :
    googleSimilarityValue refLabels userLabels refColors userColors =
      toFixed2R ((7 / 10) * (jaccardSimilarity
          (refLabels.map lowerString).toFinset (userLabels.map lowerString).toFinset : ℝ) +
        (3 / 10) * paletteSimilarity (refColors.take 5) (userColors.take 5)) ∧
    jaccardSimilarity (∅ : Finset String) (∅ : Finset String) = 0 ∧
    (∀ bs : List RGBColor, paletteSimilarity [] bs = 0) ∧
    (∀ as : List RGBColor, paletteSimilarity as [] = 0) := by
  refine ⟨?_, by simp [jaccardSimilarity], ?_, ?_⟩
  · simp only [googleSimilarityValue]
    congr 1
    ring
  · intro bs; simp [paletteSimilarity]
  · intro as; simp [paletteSimilarity]

theorem popcountAux_zero : ∀ f, popcountAux f 0 = 0
  | 0 => rfl
  | _ + 1 => rfl

theorem bitcountAux_zero : ∀ f, bitcountAux f 0 = 0
  | 0 => rfl
  | _ + 1 => rfl

theorem popcountAux_congr : ∀ f g x, x ≤ f → x ≤ g → popcountAux f x = popcountAux g x := by
  intro f
  induction f with
  | zero =>
    intro g x hf _
    have hx : x = 0 := Nat.le_zero.mp hf
    subst hx
    rw [popcountAux_zero, popcountAux_zero]
  | succ f ih =>
    intro g x hf hg
    rcases Nat.eq_zero_or_pos x with hx | hx
    · subst hx; rw [popcountAux_zero, popcountAux_zero]
    · obtain ⟨g2, rfl⟩ : ∃ g2, g = g2 + 1 := ⟨g - 1, by omega⟩
      have hand : x &&& (x - 1) ≤ x - 1 := Nat.and_le_right
      simp only [popcountAux]
      rw [if_neg (by omega), if_neg (by omega)]
      have h1 : x &&& (x - 1) ≤ f := Nat.le_trans hand (by omega)
      have h2 : x &&& (x - 1) ≤ g2 := Nat.le_trans hand (by omega)
      rw [ih g2 _ h1 h2]

theorem bitcountAux_congr : ∀ f g x, x ≤ f → x ≤ g → bitcountAux f x = bitcountAux g x := by
  intro f
  induction f with
  | zero =>
    intro g x hf _
    have hx : x = 0 := Nat.le_zero.mp hf
    subst hx
    rw [bitcountAux_zero, bitcountAux_zero]
  | succ f ih =>
    intro g x hf hg
    rcases Nat.eq_zero_or_pos x with hx | hx
    · subst hx; rw [bitcountAux_zero, bitcountAux_zero]
    · obtain ⟨g2, rfl⟩ : ∃ g2, g = g2 + 1 := ⟨g - 1, by omega⟩
      simp only [bitcountAux]
      rw [if_neg (by omega), if_neg (by omega)]
      rw [ih g2 (x / 2) (by omega) (by omega)]

theorem popcount_eq (x : Nat) :
    popcount x = if x = 0 then 0 else popcount (x &&& (x - 1)) + 1 := by
  rcases Nat.eq_zero_or_pos x with hx | hx
  · subst hx; rfl
  · rw [if_neg (by omega)]
    obtain ⟨k, rfl⟩ : ∃ k, x = k + 1 := ⟨x - 1, by omega⟩
    show popcountAux (k + 1) (k + 1) = _
    simp only [popcountAux]
    rw [if_neg (by omega)]
    have hand : (k + 1) &&& (k + 1 - 1) ≤ k := by
      have : (k + 1) &&& (k + 1 - 1) ≤ k + 1 - 1 := Nat.and_le_right
      omega
    unfold popcount
    rw [popcountAux_congr k ((k + 1) &&& (k + 1 - 1)) _ hand (Nat.le_refl _)]

theorem bitcount_eq (x : Nat) :
    bitcount x = if x = 0 then 0 else bitcount (x / 2) + x % 2 := by
  rcases Nat.eq_zero_or_pos x with hx | hx
  · subst hx; rfl
  · rw [if_neg (by omega)]
    obtain ⟨k, rfl⟩ : ∃ k, x = k + 1 := ⟨x - 1, by omega⟩
    show bitcountAux (k + 1) (k + 1) = _
    simp only [bitcountAux]
    rw [if_neg (by omega)]
    unfold bitcount
    rw [bitcountAux_congr k ((k + 1) / 2) _ (by omega) (Nat.le_refl _)]

theorem and_pred_of_odd (x : Nat) (h : x % 2 = 1) : x &&& (x - 1) = x - 1 := by
  apply Nat.eq_of_testBit_eq
  intro i
  rw [Nat.testBit_land]
  cases i with
  | zero => simp [Nat.testBit_zero, h]
  | succ i =>
    rw [Nat.testBit_add_one, Nat.testBit_add_one]
    have hh : (x - 1) / 2 = x / 2 := by omega
    rw [hh, Bool.and_self]

theorem and_pred_of_even (x : Nat) (_h0 : x ≠ 0) (h : x % 2 = 0) :
    x &&& (x - 1) = 2 * ((x / 2) &&& (x / 2 - 1)) := by
  apply Nat.eq_of_testBit_eq
  intro i
  rw [Nat.testBit_land]
  cases i with
  | zero => simp [Nat.testBit_zero, h, Nat.mul_mod_right]
  | succ i =>
    rw [Nat.testBit_add_one, Nat.testBit_add_one, Nat.testBit_add_one]
    have h1 : (x - 1) / 2 = x / 2 - 1 := by omega
    have h2 : 2 * ((x / 2) &&& (x / 2 - 1)) / 2 = (x / 2) &&& (x / 2 - 1) := by omega
    rw [h1, h2, Nat.testBit_land]

theorem bitcount_two_mul (m : Nat) : bitcount (2 * m) = bitcount m := by
  rcases Nat.eq_zero_or_pos m with hm | hm
  · subst hm; simp
  · rw [bitcount_eq (2 * m), if_neg (by omega)]
    have h1 : 2 * m / 2 = m := by omega
    have h2 : 2 * m % 2 = 0 := by omega
    rw [h1, h2, Nat.add_zero]

theorem popcount_eq_bitcount (x : Nat) : popcount x = bitcount x := by
  induction x using Nat.strong_induction_on with
  | _ x ih =>
    rcases Nat.eq_zero_or_pos x with hx | hx
    · subst hx; rfl
    · rcases Nat.mod_two_eq_zero_or_one x with he | ho
      · have key := and_pred_of_even x (by omega) he
        rw [popcount_eq x, if_neg (by omega), key]
        have hand : (x / 2) &&& (x / 2 - 1) ≤ x / 2 - 1 := Nat.and_le_right
        have hlt1 : 2 * ((x / 2) &&& (x / 2 - 1)) < x := by omega
        have hlt2 : x / 2 < x := by omega
        have hlt3 : (x / 2) &&& (x / 2 - 1) < x := by omega
        rw [ih _ hlt1, bitcount_two_mul]
        have e1 : popcount (x / 2) = bitcount (x / 2) := ih _ hlt2
        have e2 : popcount (x / 2) = popcount ((x / 2) &&& (x / 2 - 1)) + 1 := by
          rw [popcount_eq (x / 2), if_neg (by omega)]
        have e3 : popcount ((x / 2) &&& (x / 2 - 1)) = bitcount ((x / 2) &&& (x / 2 - 1)) :=
          ih _ hlt3
        have e4 : bitcount x = bitcount (x / 2) := by
          rw [bitcount_eq x, if_neg (by omega), he, Nat.add_zero]
        omega
      · have key := and_pred_of_odd x ho
        rw [popcount_eq x, if_neg (by omega), key]
        have e1 : popcount (x - 1) = bitcount (x - 1) := ih _ (by omega)
        have e2 : x - 1 = 2 * (x / 2) := by omega
        have e3 : bitcount x = bitcount (x / 2) + 1 := by
          rw [bitcount_eq x, if_neg (by omega), ho]
        have e4 : bitcount (x - 1) = bitcount (x / 2) := by rw [e2, bitcount_two_mul]
        omega

theorem bitcount_le_of_lt_two_pow : ∀ n x, x < 2 ^ n → bitcount x ≤ n := by
  intro n
  induction n with
  | zero =>
    intro x hx
    rw [Nat.pow_zero] at hx
    have hx0 : x = 0 := by omega
    subst hx0
    have h : bitcount 0 = 0 := rfl
    omega
  | succ n ih =>
    intro x hx
    rcases Nat.eq_zero_or_pos x with h0 | h0
    · subst h0
      have h : bitcount 0 = 0 := rfl
      omega
    · rw [bitcount_eq x, if_neg (by omega)]
      have hpow : 2 ^ (n + 1) = 2 * 2 ^ n := by ring
      have hdiv : x / 2 < 2 ^ n := by omega
      have := ih (x / 2) hdiv
      omega

theorem popcount_le_of_lt_two_pow {x n : Nat} (h : x < 2 ^ n) : popcount x ≤ n := by
  rw [popcount_eq_bitcount]
  exact bitcount_le_of_lt_two_pow n x h

theorem aHashFold_lt : ∀ (gs : List ℚ) (avg : ℚ) (acc : Nat),
    gs.foldl (fun h g => 2 * h + (if avg ≤ g then 1 else 0)) acc <
      (acc + 1) * 2 ^ gs.length := by
  intro gs
  induction gs with
  | nil => intro avg acc; simp
  | cons g gs ih =>
    intro avg acc
    simp only [List.foldl_cons, List.length_cons]
    have h1 := ih avg (2 * acc + (if avg ≤ g then 1 else 0))
    have h2 : (2 * acc + (if avg ≤ g then 1 else 0) + 1) * 2 ^ gs.length ≤
        (acc + 1) * 2 ^ (gs.length + 1) := by
      have hb : (if avg ≤ g then 1 else 0) ≤ 1 := by split <;> omega
      have hpow : 2 ^ (gs.length + 1) = 2 * 2 ^ gs.length := by ring
      calc (2 * acc + (if avg ≤ g then 1 else 0) + 1) * 2 ^ gs.length
          ≤ (2 * (acc + 1)) * 2 ^ gs.length := Nat.mul_le_mul_right _ (by omega)
        _ = (acc + 1) * 2 ^ (gs.length + 1) := by rw [hpow]; ring
    exact Nat.lt_of_lt_of_le h1 h2

theorem computeAHashBig_lt (gray : List ℚ) : computeAHashBig gray < 2 ^ gray.length := by
  have h := aHashFold_lt gray (gray.sum / (gray.length : ℚ)) 0
  simp only [Nat.zero_add, Nat.one_mul] at h
  simp only [computeAHashBig]
  exact h

/-- C7: for 64-bit fingerprints, the Hamming distance (popcount of XOR) is at
most 64, the similarity `1 - dist/64` lies in `[0, 1]`, the similarity is
symmetric, a fingerprint compared with itself has raw similarity exactly 1 and
returned similarity exactly 1.0, and the average-hash construction does
produce fingerprints below `2^64`. -/
theorem hamming_similarity_properties (a b : Nat) (ha : a < 2 ^ 64) (hb : b < 2 ^ 64) :
    hammingDistanceHashBigInt a b ≤ 64 ∧
    0 ≤ cvRawSimilarity a b ∧ cvRawSimilarity a b ≤ 1 ∧
    cvRawSimilarity a b = cvRawSimilarity b a ∧
    cvRawSimilarity a a = 1 ∧
    (cvSimilarityClient a a).similarity = 1 ∧
    (∀ gray : List ℚ, gray.length = 64 → computeAHashBig gray < 2 ^ 64) := by
  have hdist : hammingDistanceHashBigInt a b ≤ 64 :=
    popcount_le_of_lt_two_pow (Nat.xor_lt_two_pow ha hb)
  have hself : hammingDistanceHashBigInt a a = 0 := by
    show popcount (a ^^^ a) = 0
    rw [Nat.xor_self]
    rfl
  refine ⟨hdist, ?_, ?_, ?_, ?_, ?_, ?_⟩
  · have hc : (hammingDistanceHashBigInt a b : ℚ) ≤ 64 := by exact_mod_cast hdist
    unfold cvRawSimilarity
    rw [sub_nonneg, div_le_one (by norm_num : (0:ℚ) < 64)]
    exact hc
  · unfold cvRawSimilarity
    have hp : (0:ℚ) ≤ (hammingDistanceHashBigInt a b : ℚ) / 64 := by positivity
    linarith
  · unfold cvRawSimilarity hammingDistanceHashBigInt
    rw [Nat.xor_comm]
  · unfold cvRawSimilarity
    rw [hself]
    norm_num
  · show (cvSimilarityClient a a).similarity = 1
    simp only [cvSimilarityClient, hself]
    norm_num [toFixed2]
  · intro gray hlen
    have h := computeAHashBig_lt gray
    rw [hlen] at h
    exact h

theorem hamming_similarity_properties_witness :
    hammingDistanceHashBigInt 5 9 ≤ 64 ∧ cvRawSimilarity 5 5 = 1 :=
  ⟨(hamming_similarity_properties 5 9 (by norm_num) (by norm_num)).1,
   (hamming_similarity_properties 5 5 (by norm_num) (by norm_num)).2.2.2.2.1⟩

theorem firstSome?_eq_some {α β : Type} {l : List α} {f : α → Option β} {b : β}
    (h : firstSome? l f = some b) : ∃ a ∈ l, f a = some b := by
  induction l with
  | nil => simp [firstSome?] at h
  | cons a as ih =>
    simp only [firstSome?] at h
    split at h
    · next b2 heq =>
      exact ⟨a, List.mem_cons_self a as, by rw [heq, h]⟩
    · next heq =>
      obtain ⟨a2, ha2, hf⟩ := ih h
      exact ⟨a2, List.mem_cons_of_mem _ ha2, hf⟩

theorem scanText_eq_some {α : Type} {f : Option Char → List Char → Option α}
    {p : Option Char} {cs : List Char} {r : α}
    (h : scanText f p cs = some r) : ∃ p2 cs2, f p2 cs2 = some r := by
  induction cs generalizing p with
  | nil => exact ⟨p, [], h⟩
  | cons c cs ih =>
    simp only [scanText] at h
    split at h
    · next r2 heq =>
      exact ⟨p, c :: cs, by rw [heq, h]⟩
    · next heq => exact ih h

theorem takeDigitsUpTo_digits : ∀ n cs, ((takeDigitsUpTo n cs).1).all Char.isDigit = true := by
  intro n
  induction n with
  | zero => intro cs; rfl
  | succ n ih =>
    intro cs
    cases cs with
    | nil => rfl
    | cons c cs =>
      simp only [takeDigitsUpTo]
      split
      · next hc => simpa [hc] using ih cs
      · rfl

theorem digitCandidates_mem {cs : List Char} {ds r : List Char}
    (h : (ds, r) ∈ digitCandidates cs) : ds ≠ [] ∧ ds.all Char.isDigit = true := by
  simp only [digitCandidates, List.mem_map, List.mem_range] at h
  obtain ⟨j, hj, heq⟩ := h
  have hall := takeDigitsUpTo_digits 4 cs
  obtain ⟨h1, h2⟩ := Prod.mk.injEq .. ▸ heq
  constructor
  · rw [← h1]
    have hlen : ((takeDigitsUpTo 4 cs).1.take ((takeDigitsUpTo 4 cs).1.length - j)).length =
        (takeDigitsUpTo 4 cs).1.length - j := by
      rw [List.length_take]
      omega
    intro hnil
    rw [hnil] at hlen
    simp at hlen
    omega
  · rw [← h1]
    rw [List.all_eq_true] at hall ⊢
    intro c hc
    exact hall c (List.take_subset _ _ hc)

theorem decCandidates_mem {cs dec : List Char} (h : dec ∈ decCandidates cs) :
    dec = [] ∨
    (∃ s d1, dec = [s, d1] ∧ (s = '.' ∨ s = ',') ∧ d1.isDigit = true) ∨
    (∃ s d1 d2, dec = [s, d1, d2] ∧ (s = '.' ∨ s = ',') ∧
      d1.isDigit = true ∧ d2.isDigit = true) := by
  simp only [decCandidates, List.mem_append] at h
  rcases h with (h | h) | h
  · rcases cs with _ | ⟨s, _ | ⟨d1, _ | ⟨d2, rest⟩⟩⟩ <;> simp only [] at h
    · simp at h
    · simp at h
    · simp at h
    · split at h
      · next hcond =>
        simp only [List.mem_singleton] at h
        subst h
        simp only [Bool.and_eq_true, Bool.or_eq_true, beq_iff_eq] at hcond
        exact Or.inr (Or.inr ⟨s, d1, d2, rfl, hcond.1.1, hcond.1.2, hcond.2⟩)
      · simp at h
  · rcases cs with _ | ⟨s, _ | ⟨d1, rest⟩⟩ <;> simp only [] at h
    · simp at h
    · simp at h
    · split at h
      · next hcond =>
        simp only [List.mem_singleton] at h
        subst h
        simp only [Bool.and_eq_true, Bool.or_eq_true, beq_iff_eq] at hcond
        exact Or.inr (Or.inl ⟨s, d1, rfl, hcond.1, hcond.2⟩)
      · simp at h
  · simp only [List.mem_singleton] at h
    exact Or.inl h

theorem unitAt_mem {cs : List Char} {tok : String} (h : unitAt cs = some tok) :
    tok ∈ UNIT_TOKENS := by
  obtain ⟨a, ha, hf⟩ := firstSome?_eq_some h
  split at hf
  · next rest heq =>
    split at hf
    · exact Option.some.inj hf ▸ ha
    · exact absurd hf (by simp)
  · exact absurd hf (by simp)

theorem takeWhile_all {p : Char → Bool} : ∀ {l : List Char}, l.all p = true → l.takeWhile p = l := by
  intro l
  induction l with
  | nil => intro _; rfl
  | cons c cs ih =>
    intro h
    simp only [List.all_cons, Bool.and_eq_true] at h
    simp [List.takeWhile_cons, h.1, ih h.2]

theorem dropWhile_all {p : Char → Bool} : ∀ {l : List Char}, l.all p = true → l.dropWhile p = [] := by
  intro l
  induction l with
  | nil => intro _; rfl
  | cons c cs ih =>
    intro h
    simp only [List.all_cons, Bool.and_eq_true] at h
    simp [List.dropWhile_cons, h.1, ih h.2]

theorem takeWhile_append_cons {p : Char → Bool} {c : Char} :
    ∀ {ds : List Char} (r : List Char), ds.all p = true → p c = false →
      ((ds ++ c :: r).takeWhile p = ds ∧ (ds ++ c :: r).dropWhile p = c :: r) := by
  intro ds
  induction ds with
  | nil =>
    intro r _ hc
    simp [List.takeWhile_cons, List.dropWhile_cons, hc]
  | cons d ds ih =>
    intro r h hc
    simp only [List.all_cons, Bool.and_eq_true] at h
    have := ih r h.2 hc
    simp [List.takeWhile_cons, List.dropWhile_cons, h.1, this.1, this.2]

theorem numericTest_digits {ds : List Char} (hne : ds ≠ []) (h : ds.all Char.isDigit = true) :
    numericTest ds = true := by
  simp only [numericTest, List.span_eq_take_drop, takeWhile_all h, dropWhile_all h]
  simp [hne]

theorem numericTest_digits_dot {ds ds2 : List Char} (hne : ds ≠ []) (hne2 : ds2 ≠ [])
    (h : ds.all Char.isDigit = true) (h2 : ds2.all Char.isDigit = true) :
    numericTest (ds ++ '.' :: ds2) = true := by
  have hsplit := takeWhile_append_cons (p := Char.isDigit) (c := '.') ds2 h rfl
  simp only [numericTest, List.span_eq_take_drop, hsplit.1, hsplit.2,
    takeWhile_all h2, dropWhile_all h2]
  simp [hne, hne2]

theorem numericTest_ne_nil {cs : List Char} (h : numericTest cs = true) : cs ≠ [] := by
  intro hc
  subst hc
  simp [numericTest] at h

theorem filter_ne_comma_of_digits {ds : List Char} (h : ds.all Char.isDigit = true) :
    (ds.filter fun c => !(c == ',')) = ds := by
  apply List.filter_eq_self.mpr
  intro a ha
  have hd := List.all_eq_true.mp h a ha
  rcases eq_or_ne a ',' with rfl | hne
  · simp at hd
  · simp [hne]

theorem unitMapLookup_props : ∀ tok ∈ UNIT_TOKENS,
    ["g", "kg", "ml", "L", "pcs"].contains (unitMapLookup tok) = true ∧
    unitMapLookup tok ≠ "" := by
  decide

theorem qtyAt_sound {p : Option Char} {cs n : List Char} {tok : String}
    (h : qtyAt p cs = some (n, tok)) :
    tok ∈ UNIT_TOKENS ∧ numericTest (n.filter fun c => !(c == ',')) = true := by
  obtain ⟨dc, hdc, h1⟩ := firstSome?_eq_some h
  obtain ⟨dec, hdec, h2⟩ := firstSome?_eq_some h1
  rcases dc with ⟨ds, rest⟩
  simp only [Option.map_eq_some'] at h2
  obtain ⟨tok2, hu, heq⟩ := h2
  obtain ⟨hn, ht⟩ := Prod.mk.injEq .. ▸ heq
  subst hn
  subst ht
  obtain ⟨hne, hall⟩ := digitCandidates_mem hdc
  refine ⟨unitAt_mem hu, ?_⟩
  rcases decCandidates_mem hdec with rfl | ⟨s, d1, rfl, hs, hd1⟩ | ⟨s, d1, d2, rfl, hs, hd1, hd2⟩
  · rw [List.append_nil, filter_ne_comma_of_digits hall]
    exact numericTest_digits hne hall
  · have hfd : ([d1].filter fun c => !(c == ',')) = [d1] :=
      filter_ne_comma_of_digits (by simp [hd1])
    rcases hs with rfl | rfl
    · rw [List.filter_append, filter_ne_comma_of_digits hall]
      have hstep : (([('.' : Char), d1]).filter fun c => !(c == ',')) = '.' :: [d1] := by
        rw [List.filter_cons, if_pos (by decide), hfd]
      rw [hstep]
      exact numericTest_digits_dot hne (by simp) hall (by simp [hd1])
    · rw [List.filter_append, filter_ne_comma_of_digits hall]
      have hstep : (([(',' : Char), d1]).filter fun c => !(c == ',')) = [d1] := by
        rw [List.filter_cons, if_neg (by decide), hfd]
      rw [hstep]
      refine numericTest_digits (by simp) ?_
      rw [List.all_append]
      simp [hall, hd1]
  · have hfd : ([d1, d2].filter fun c => !(c == ',')) = [d1, d2] :=
      filter_ne_comma_of_digits (by simp [hd1, hd2])
    rcases hs with rfl | rfl
    · rw [List.filter_append, filter_ne_comma_of_digits hall]
      have hstep : (([('.' : Char), d1, d2]).filter fun c => !(c == ',')) = '.' :: [d1, d2] := by
        rw [List.filter_cons, if_pos (by decide), hfd]
      rw [hstep]
      exact numericTest_digits_dot hne (by simp) hall (by simp [hd1, hd2])
    · rw [List.filter_append, filter_ne_comma_of_digits hall]
      have hstep : (([(',' : Char), d1, d2]).filter fun c => !(c == ',')) = [d1, d2] := by
        rw [List.filter_cons, if_neg (by decide), hfd]
      rw [hstep]
      refine numericTest_digits (by simp) ?_
      rw [List.all_append]
      simp [hall, hd1, hd2]

/-- C9: for every input, `net_quantity` and `unit` are both present or both
absent; a present unit is one of `g, kg, ml, L, pcs`; a present net quantity
is a comma-free numeric string accepted by the `net_quantity_numeric` rule
pattern. -/
theorem quantity_unit_invariants (raw : String) :
    qtyShapeOk (parseFieldsFromRawText raw) = true := by
  have hnq := parse_net_quantity raw
  have hun := parse_unit raw
  unfold qtyShapeOk
  cases hq : scanText qtyAt none (normalizeRupee raw.data) with
  | none =>
    rw [hq] at hnq hun
    rw [hnq, hun]
    rfl
  | some m =>
    rcases m with ⟨n, tok⟩
    rw [hq] at hnq hun
    simp only [Option.map_some'] at hnq hun
    obtain ⟨p2, cs2, hAt⟩ := scanText_eq_some hq
    obtain ⟨htok, hnum⟩ := qtyAt_sound hAt
    obtain ⟨hcont, _⟩ := unitMapLookup_props tok htok
    rw [hnq, hun]
    simp only [Option.isNone_some, beq_self_eq_true, Bool.true_and]
    rw [Bool.and_eq_true]
    constructor
    · exact hcont
    · have : ((n.filter fun c => !(c == ',')).asString).data =
          n.filter fun c => !(c == ',') := rfl
      rw [this]
      exact hnum

theorem absentOrNonempty_some {s : String} (h : s ≠ "") : absentOrNonempty (some s) = true := by
  simp [absentOrNonempty, h]

theorem asString_ne_empty {l : List Char} (h : l ≠ []) : l.asString ≠ "" := by
  intro hc
  exact h (congrArg String.data hc)

theorem append_cons_ne_nil {l r : List Char} {c : Char} : l ++ c :: r ≠ [] := by
  cases l <;> simp

theorem amountAt_ne_nil {cs amt : List Char} (h : amountAt cs = some amt) : amt ≠ [] := by
  unfold amountAt at h
  iterate 8 (all_goals try split at h)
  all_goals try (exfalso; exact Option.noConfusion h)
  all_goals
    (have hw := Option.some.inj h
     intro hnil
     rw [← hw] at hnil
     simp at hnil)

theorem mrpAt_sound {p : Option Char} {cs w amt : List Char}
    (h : mrpAt p cs = some (w, amt)) : w ≠ [] := by
  rcases cs with _ | ⟨c, rest⟩
  · exact Option.noConfusion h
  unfold mrpAt at h
  dsimp only at h
  by_cases h1 : (c == '₹') = true
  · rw [if_pos h1] at h
    simp only [Option.map_eq_some'] at h
    obtain ⟨a, -, heq⟩ := h
    have hw := (Prod.mk.injEq .. ▸ heq).1
    intro hnil
    rw [← hw] at hnil
    simp at hnil
  rw [if_neg h1] at h
  by_cases h2 : (c.toLower == 'r') = true
  swap
  · rw [if_neg h2] at h
    exact Option.noConfusion h
  rw [if_pos h2] at h
  rcases rest with _ | ⟨c2, rest2⟩
  · exact Option.noConfusion h
  dsimp only at h
  by_cases h3 : (c2.toLower == 's') = true
  swap
  · rw [if_neg h3] at h
    exact Option.noConfusion h
  rw [if_pos h3] at h
  by_cases h4 : (rest2.head? == some '.') = true
  · rw [if_pos h4] at h
    simp only [Option.map_eq_some'] at h
    obtain ⟨a, -, heq⟩ := h
    have hw := (Prod.mk.injEq .. ▸ heq).1
    intro hnil
    rw [← hw] at hnil
    simp at hnil
  · rw [if_neg h4] at h
    simp only [Option.map_eq_some'] at h
    obtain ⟨a, -, heq⟩ := h
    have hw := (Prod.mk.injEq .. ▸ heq).1
    intro hnil
    rw [← hw] at hnil
    simp at hnil

theorem careTollFree_sound {cs w : List Char} (h : careTollFree cs = some w) : w ≠ [] := by
  unfold careTollFree at h
  iterate 10 (all_goals try split at h)
  all_goals try (exfalso; exact Option.noConfusion h)
  all_goals
    (have hw := Option.some.inj h
     intro hnil
     rw [← hw] at hnil
     simp at hnil)

theorem careTenDigit_sound {p : Option Char} {cs w : List Char}
    (h : careTenDigit p cs = some w) : w ≠ [] := by
  unfold careTenDigit at h
  by_cases hb : (!boundaryBefore p) = true
  · rw [if_pos hb] at h
    exact Option.noConfusion h
  rw [if_neg hb] at h
  simp only [] at h
  by_cases hc : (((takeDigitsUpTo 10 cs).1.length == 10) &&
      wordBoundaryAfter (takeDigitsUpTo 10 cs).2) = true
  · rw [if_pos hc] at h
    have hw := Option.some.inj h
    simp only [Bool.and_eq_true, beq_iff_eq] at hc
    intro hnil
    rw [← hw] at hnil
    rw [hnil] at hc
    simp at hc
  · rw [if_neg hc] at h
    exact Option.noConfusion h

theorem careAt_sound {p : Option Char} {cs w : List Char}
    (h : careAt p cs = some w) : w ≠ [] := by
  unfold careAt at h
  split at h
  · next r heq =>
    have hr := Option.some.inj h
    exact hr ▸ careTollFree_sound heq
  · exact careTenDigit_sound h

theorem linesOf_mem_ne_nil {text l : List Char} (h : l ∈ linesOf text) : l ≠ [] := by
  simp only [linesOf, List.mem_filter] at h
  intro hnil
  rw [hnil] at h
  simp at h

/-- C2 (amended): `raw_text` always equals the exact input; `mrp`,
`net_quantity`, `unit`, `manufacturer_address`, `month_year` and
`consumer_care` are each absent or non-empty; a pattern-free input yields
every optional field absent. (`generic_name` and `manufacturer_name` can be
the empty string, see the counterexample.) -/
theorem extractor_output_invariants (raw : String) :
    (parseFieldsFromRawText raw).raw_text = some raw ∧
    fieldsShapeOk (parseFieldsFromRawText raw) = true ∧
    parseFieldsFromRawText "hello world" = { raw_text := some "hello world" } := by
  refine ⟨rfl, ?_, by decide⟩
  unfold fieldsShapeOk
  simp only [Bool.and_eq_true]
  refine ⟨⟨⟨⟨⟨?_, ?_⟩, ?_⟩, ?_⟩, ?_⟩, ?_⟩
  · rw [parse_mrp raw]
    cases hm : scanText mrpAt none (normalizeRupee raw.data) with
    | none => rfl
    | some m =>
      rcases m with ⟨w, amt⟩
      obtain ⟨p2, cs2, hAt⟩ := scanText_eq_some hm
      have hw := mrpAt_sound hAt
      simp only [Option.map_some']
      split
      · exact absentOrNonempty_some (asString_ne_empty (by simp))
      · exact absentOrNonempty_some (asString_ne_empty hw)
  · rw [parse_net_quantity raw]
    cases hq : scanText qtyAt none (normalizeRupee raw.data) with
    | none => rfl
    | some m =>
      rcases m with ⟨n, tok⟩
      obtain ⟨p2, cs2, hAt⟩ := scanText_eq_some hq
      obtain ⟨-, hnum⟩ := qtyAt_sound hAt
      simp only [Option.map_some']
      exact absentOrNonempty_some (asString_ne_empty (numericTest_ne_nil hnum))
  · rw [parse_unit raw]
    cases hq : scanText qtyAt none (normalizeRupee raw.data) with
    | none => rfl
    | some m =>
      rcases m with ⟨n, tok⟩
      obtain ⟨p2, cs2, hAt⟩ := scanText_eq_some hq
      obtain ⟨htok, -⟩ := qtyAt_sound hAt
      simp only [Option.map_some']
      exact absentOrNonempty_some (unitMapLookup_props tok htok).2
  · rw [parse_manufacturer_address raw]
    split
    · rfl
    · split
      · split
        · next nxt hn _ =>
          exact absentOrNonempty_some
            (asString_ne_empty (linesOf_mem_ne_nil (List.get?_mem hn)))
        · rfl
      · rfl
  · rw [parse_month_year raw]
    cases hm : scanText monthYearAt none (normalizeRupee raw.data) with
    | none => rfl
    | some m =>
      simp only [Option.map_some']
      exact absentOrNonempty_some (asString_ne_empty append_cons_ne_nil)
  · rw [parse_consumer_care raw]
    cases hc : scanText careAt none (normalizeRupee raw.data) with
    | none => rfl
    | some w =>
      obtain ⟨p2, cs2, hAt⟩ := scanText_eq_some hc
      simp only [Option.map_some']
      exact absentOrNonempty_some (asString_ne_empty (careAt_sound hAt))

/-- C3 counterexample: in `"Rs 100 and ₹"` the MRP match is `"Rs 100"`, a
span that does not contain the rupee sign, yet the extractor outputs
`"₹100"` (the whole text contains a rupee sign elsewhere) instead of the
matched text `"Rs 100"` the claim requires. -/
theorem mrp_span_counterexample :
    scanText mrpAt none (normalizeRupee "Rs 100 and ₹".data) =
      some ("Rs 100".data, "100".data) ∧
    "Rs 100".data.contains '₹' = false ∧
    (parseFieldsFromRawText "Rs 100 and ₹").mrp = some "₹100" ∧
    "₹100" ≠ "Rs 100" :=
  ⟨by decide, by decide, by decide, by decide⟩

/-- C3 (amended): when the MRP pattern matches, the output is `₹<amount>`
exactly when the rupee sign occurs anywhere in the (rupee-normalized) input
text, and the matched text unchanged otherwise. -/
theorem mrp_normalization (raw : String) (w amt : List Char)
    (h : scanText mrpAt none (normalizeRupee raw.data) = some (w, amt)) :
    (parseFieldsFromRawText raw).mrp =
      some (if (normalizeRupee raw.data).contains '₹'
            then ('₹' :: amt).asString else w.asString) := by
  rw [parse_mrp raw, h]
  rfl

theorem mrp_normalization_witness :
    (parseFieldsFromRawText "₹57").mrp = some "₹57" := by
  rw [mrp_normalization "₹57" "₹57".data "57".data (by decide)]
  decide

/-- C10: if `manufacturer_address` is present then a manufacturer-indicator
line was found, `manufacturer_name` is that line with everything up to the
first colon (and following whitespace) stripped, and the address is the
immediately following trimmed line, which contains a digit or a comma. -/
theorem manufacturer_address_structure (raw : String) (a : String)
    (h : (parseFieldsFromRawText raw).manufacturer_address = some a) :
    ∃ l, (linesOf (normalizeRupee raw.data)).find? manufTest = some l ∧
      (parseFieldsFromRawText raw).manufacturer_name =
        some ((stripColonRepl l).asString) ∧
      ∃ nxt, (linesOf (normalizeRupee raw.data)).get?
          ((linesOf (normalizeRupee raw.data)).indexOf l + 1) = some nxt ∧
        a = nxt.asString ∧ nxt.any (fun c => c.isDigit || c == ',') = true := by
  rw [parse_manufacturer_address raw] at h
  split at h
  · exact Option.noConfusion h
  · next l hl =>
    split at h
    · next nxt hn =>
      split at h
      · next hdig =>
        have ha := (Option.some.inj h).symm
        exact ⟨l, hl, by rw [parse_manufacturer_name raw, hl]; rfl,
          nxt, hn, ha, hdig⟩
      · exact Option.noConfusion h
    · exact Option.noConfusion h

theorem manufacturer_address_structure_witness :
    (parseFieldsFromRawText "Mfg by: Acme\n12 Main St, City").manufacturer_name =
      some ((stripColonRepl "Mfg by: Acme".data).asString) := by
  obtain ⟨l, hl, hname, -⟩ := manufacturer_address_structure
    "Mfg by: Acme\n12 Main St, City" "12 Main St, City" (by decide)
  have hfind : (linesOf (normalizeRupee "Mfg by: Acme\n12 Main St, City".data)).find?
      manufTest = some ("Mfg by: Acme".data) := by decide
  rw [hfind] at hl
  rw [Option.some.inj hl]
  exact hname

end Compliance
